import Mathlib

-- Verification of the 0x component tagger (src/0x-tagger/src/index.ts) and the
-- design-mode overlay (src/public/design-mode.js).
--
-- The Tagger is a build-time source-to-source transform that injects identity
-- attributes (data-0x-component-id, data-0x-file, data-0x-line, data-0x-column,
-- data-0x-component) onto JSX elements.  The Overlay is a runtime script that
-- resolves those attributes on a live document tree and applies text/style
-- edit commands.  Both are embedded shallowly below: pure functions of the
-- source become Lean functions, DOM mutation becomes functional update of an
-- explicit document-tree type.

namespace Tagger

/-! ### File eligibility (shouldProcessFile, index.ts lines 82-110)

The source converts each exclude glob to a JS regular expression
(`** ↦ .*`, `* ↦ [^/]*`, `? ↦ .`) and calls `regex.test(path)`, which is an
unanchored substring search.  A literal `.` in a pattern is not escaped, so in
the built regex it matches any character, exactly like `?`.  JS `.` does not
match the line terminators `\n`/`\r`.  (Patterns are assumed free of the other
regex metacharacters, as all patterns in the repository are.) -/

/-- Tokens of the regex built from a glob pattern by `shouldProcessFile`. -/
inductive GlobTok where
  | dstar
  | star
  | qmark
  | lit (c : Char)
  deriving DecidableEq

/-- Tokenize a glob pattern the way the source's replace chain builds the
regex: `**` becomes `.*` (dstar), remaining `*` becomes `[^/]*` (star),
`?` becomes `.` (qmark), and an unescaped literal `.` is also the regex
any-char `.` (qmark). -/
def globToks : List Char → List GlobTok
  | [] => []
  | '*' :: '*' :: rest => .dstar :: globToks rest
  | '*' :: rest => .star :: globToks rest
  | '?' :: rest => .qmark :: globToks rest
  | '.' :: rest => .qmark :: globToks rest
  | c :: rest => .lit c :: globToks rest

/-- JS regex `.` matches any character except a line terminator. -/
def dotOk (c : Char) : Bool := c != '\n' && c != '\r'

/-- Does the token list match some prefix of `s`?  (A `regex.test` match may
end before the end of the string, so an exhausted token list succeeds.)
`fuel` only forces termination; every step consumes a token or a character,
so `ts.length + s.length + 1` is always enough. -/
def matchFrom (fuel : Nat) (ts : List GlobTok) (s : List Char) : Bool :=
  match fuel with
  | 0 => false
  | fuel + 1 =>
    match ts, s with
    | [], _ => true
    | .lit _ :: _, [] => false
    | .lit c :: ts', c' :: s' => c == c' && matchFrom fuel ts' s'
    | .qmark :: _, [] => false
    | .qmark :: ts', c :: s' => dotOk c && matchFrom fuel ts' s'
    | .star :: ts', s =>
      matchFrom fuel ts' s ||
        (match s with
         | [] => false
         | c :: s' => c != '/' && matchFrom fuel (.star :: ts') s')
    | .dstar :: ts', s =>
      matchFrom fuel ts' s ||
        (match s with
         | [] => false
         | c :: s' => dotOk c && matchFrom fuel (.dstar :: ts') s')

/-- Match the token list at the start of `s`, with enough fuel. -/
def matchHere (ts : List GlobTok) (s : List Char) : Bool :=
  matchFrom (ts.length + s.length + 1) ts s

/-- Unanchored search: `regex.test(s)` succeeds iff the pattern matches
starting at some position of `s` (including the empty suffix at the end). -/
def searchFrom (ts : List GlobTok) : List Char → Bool
  | [] => matchHere ts []
  | c :: s' => matchHere ts (c :: s') || searchFrom ts s'

/-- The source's backslash normalization of paths and patterns. -/
def normalizeSlashes (s : String) : String :=
  String.mk (s.data.map fun c => if c = '\\' then '/' else c)

/-- One exclude-pattern test of `shouldProcessFile`: normalize both strings,
build the regex from the glob, and run the unanchored `test`. -/
def globTest (pattern path : String) : Bool :=
  searchFrom (globToks (normalizeSlashes pattern).data) (normalizeSlashes path).data

/-- `/\.(jsx|tsx)$/.test(filePath)` : the file name ends in `.jsx` or `.tsx`. -/
def hasJsxExt (filePath : String) : Bool :=
  List.isSuffixOf ".jsx".data filePath.data || List.isSuffixOf ".tsx".data filePath.data

/-- Plugin options (interface TaggerOptions with the defaults applied). -/
structure TaggerOptions where
  enabled : Bool
  «include» : List String
  exclude : List String
  attributeName : String
  includeFilePath : Bool
  includeLineNumber : Bool
  rootDir : String
  debug : Bool
  deriving DecidableEq

/-- DEFAULT_OPTIONS of index.ts (with `enabled` resolved to development). -/
def defaultOptions : TaggerOptions :=
  { enabled := true
    «include» := ["**/*.{jsx,tsx}"]
    exclude := ["node_modules/**", "dist/**", "build/**", "**/ui/**"]
    attributeName := "data-0x-component-id"
    includeFilePath := true
    includeLineNumber := true
    rootDir := "/"
    debug := false }

/-- shouldProcessFile (index.ts lines 82-110): only `.jsx`/`.tsx` files, then
reject any file matching an exclude pattern.  The include patterns are never
consulted. -/
def shouldProcessFile (filePath : String) (options : TaggerOptions) : Bool :=
  if !(hasJsxExt filePath) then
    false
  else
    let isExcluded := options.exclude.any fun pattern => globTest pattern filePath
    !isExcluded

end Tagger

namespace Tagger

/-- C8: File eligibility never consults the configured include patterns: for
every file id ending in `.jsx` or `.tsx` that matches no exclude pattern,
`shouldProcessFile` returns `true`, whatever the include list is. -/
theorem C8_shouldProcessFile_ignores_include
    (filePath : String) (opts : TaggerOptions) (inc : List String)
    (hext : hasJsxExt filePath = true)
    (hexc : ∀ p ∈ opts.exclude, globTest p filePath = false) :
    shouldProcessFile filePath { opts with «include» := inc } = true := by
  unfold shouldProcessFile
  have h2 : ((({ opts with «include» := inc } : TaggerOptions).exclude).any
      fun pattern => globTest pattern filePath) = false := by
    simp only [List.any_eq_false]
    intro p hp
    simp [hexc p hp]
  simp [hext, h2]

/-- C8 witness: `src/pages/App.tsx` is eligible under the default exclude
patterns even with an empty include list. -/
theorem C8_witness :
    hasJsxExt "src/pages/App.tsx" = true ∧
    (∀ p ∈ defaultOptions.exclude, globTest p "src/pages/App.tsx" = false) ∧
    shouldProcessFile "src/pages/App.tsx" { defaultOptions with «include» := [] } = true := by
  refine ⟨by decide, by decide, ?_⟩
  exact C8_shouldProcessFile_ignores_include "src/pages/App.tsx" defaultOptions []
    (by decide) (by decide)

end Tagger

namespace Tagger

/-! ### Source positions and the injected attributes (index.ts lines 189-263)

transformCode reads `loc.start.line` / `loc.start.column` of each element's
opening construct from the Babel AST.  Babel reports lines 1-based and columns
0-based: starting from line 1 / column 0, a `'\n'` starts a new line and resets
the column, any other character advances the column. -/

/-- One step of Babel's position bookkeeping. -/
def advancePos (lc : Nat × Nat) (c : Char) : Nat × Nat :=
  if c = '\n' then (lc.1 + 1, 0) else (lc.1, lc.2 + 1)

/-- Scan a character list, updating a (line, column) pair. -/
def scanPos : List Char → Nat × Nat → Nat × Nat
  | [], lc => lc
  | c :: rest, lc => scanPos rest (advancePos lc c)

/-- Babel's `loc.start` of the token beginning at character index `i` of the
source: the position reached after scanning the first `i` characters, starting
from line 1, column 0. -/
def babelPos (s : List Char) (i : Nat) : Nat × Nat :=
  scanPos (s.take i) (1, 0)

/-- Written from the spec's words: the 1-based line of index `i` is one more
than the number of newlines before it. -/
def specOneBasedLine (s : List Char) (i : Nat) : Nat :=
  (s.take i).count '\n' + 1

/-- Written from the spec's words: the 0-based column of index `i` is the
number of characters between the last newline before it (or the start of the
source) and `i`. -/
def specZeroBasedColumn (s : List Char) (i : Nat) : Nat :=
  ((s.take i).reverse.takeWhile (fun c => c != '\n')).length

theorem takeWhile_ne_nl_of_not_mem (l : List Char) (h : '\n' ∉ l) :
    l.takeWhile (fun c => c != '\n') = l := by
  induction l with
  | nil => rfl
  | cons c rest ih =>
    simp only [List.mem_cons, not_or] at h
    simp only [List.takeWhile_cons]
    rw [if_pos (by simp only [bne_iff_ne, ne_eq, decide_eq_true_eq]; exact fun hh => h.1 hh.symm)]
    rw [ih h.2]

theorem takeWhile_ne_nl_append_nl (l r : List Char) (h : '\n' ∉ l) :
    (l ++ '\n' :: r).takeWhile (fun c => c != '\n') = l := by
  induction l with
  | nil => simp [List.takeWhile_cons]
  | cons c rest ih =>
    simp only [List.mem_cons, not_or] at h
    simp only [List.cons_append, List.takeWhile_cons]
    rw [if_pos (by simp only [bne_iff_ne, ne_eq, decide_eq_true_eq]; exact fun hh => h.1 hh.symm)]
    rw [ih h.2]

theorem takeWhile_ne_nl_append_of_mem (l : List Char) (c : Char) (h : '\n' ∈ l) :
    (l ++ [c]).takeWhile (fun x => x != '\n') = l.takeWhile (fun x => x != '\n') := by
  induction l with
  | nil => cases h
  | cons x rest ih =>
    by_cases hx : x = '\n'
    · subst hx
      simp [List.takeWhile_cons]
    · have hr : '\n' ∈ rest := by
        rcases List.mem_cons.mp h with h1 | h1
        · exact absurd h1.symm hx
        · exact h1
      have hp : ((fun x => x != '\n') x) = true := by
        simp only [bne_iff_ne, ne_eq, decide_eq_true_eq]; exact hx
      simp only [List.cons_append, List.takeWhile_cons]
      rw [if_pos hp, if_pos hp, ih hr]

theorem scanPos_spec (l : List Char) (line col : Nat) :
    scanPos l (line, col) =
      (line + l.count '\n',
       if '\n' ∈ l then (l.reverse.takeWhile (fun c => c != '\n')).length
       else col + l.length) := by
  induction l generalizing line col with
  | nil => simp [scanPos]
  | cons c rest ih =>
    rw [show scanPos (c :: rest) (line, col) = scanPos rest (advancePos (line, col) c) from rfl]
    by_cases hc : c = '\n'
    · subst hc
      rw [show advancePos (line, col) '\n' = (line + 1, 0) from by simp [advancePos]]
      rw [ih]
      have hmem : '\n' ∈ '\n' :: rest := List.mem_cons_self _ _
      rw [if_pos hmem, List.reverse_cons]
      by_cases hm : '\n' ∈ rest
      · rw [if_pos hm, takeWhile_ne_nl_append_of_mem _ _ (List.mem_reverse.mpr hm)]
        have : ('\n' :: rest).count '\n' = rest.count '\n' + 1 := by
          simp [List.count_cons]
        rw [this, Prod.mk.injEq]
        exact ⟨by omega, rfl⟩
      · rw [if_neg hm]
        rw [show ((rest.reverse ++ ['\n']) : List Char) = rest.reverse ++ '\n' :: [] from rfl]
        rw [takeWhile_ne_nl_append_nl _ _ (fun hh => hm (List.mem_reverse.mp hh))]
        have : ('\n' :: rest).count '\n' = rest.count '\n' + 1 := by
          simp [List.count_cons]
        rw [this, Prod.mk.injEq, List.length_reverse]
        exact ⟨by omega, by omega⟩
    · rw [show advancePos (line, col) c = (line, col + 1) from by simp [advancePos, hc]]
      rw [ih]
      have hcount : (c :: rest).count '\n' = rest.count '\n' := by
        simp [List.count_cons]
        exact fun hh => hc hh
      have hmem : ('\n' ∈ c :: rest) ↔ ('\n' ∈ rest) := by
        constructor
        · intro hh
          rcases List.mem_cons.mp hh with h1 | h1
          · exact absurd h1.symm hc
          · exact h1
        · exact fun hh => List.mem_cons_of_mem _ hh
      by_cases hm : '\n' ∈ rest
      · rw [if_pos hm, if_pos (hmem.mpr hm), List.reverse_cons,
          takeWhile_ne_nl_append_of_mem _ _ (List.mem_reverse.mpr hm), hcount]
      · rw [if_neg hm, if_neg (fun hh => hm (hmem.mp hh)), hcount]
        rw [Prod.mk.injEq, List.length_cons]
        exact ⟨rfl, by omega⟩

/-- Babel's scanner realizes exactly the 1-based-line / 0-based-column spec. -/
theorem babelPos_eq (s : List Char) (i : Nat) :
    babelPos s i = (specOneBasedLine s i, specZeroBasedColumn s i) := by
  unfold babelPos specOneBasedLine specZeroBasedColumn
  rw [scanPos_spec]
  by_cases hm : '\n' ∈ s.take i
  · rw [if_pos hm]
    simp [Nat.add_comm]
  · rw [if_neg hm, takeWhile_ne_nl_of_not_mem _ (fun hh => hm (List.mem_reverse.mp hh))]
    simp [Nat.add_comm]

end Tagger

namespace Tagger

/-- `path.basename(p)`: the last path segment. -/
def lastSegment (p : String) : String :=
  String.mk ((p.data.reverse.takeWhile (fun c => c != '/')).reverse)

/-- `path.extname(p)`: suffix of the basename from its last `.`; empty when
there is no dot or the only dot starts a dotfile. -/
def extnameOf (p : String) : String :=
  let b := (lastSegment p).data
  let revToDot := b.reverse.takeWhile (fun c => c != '.')
  if revToDot.length + 1 < b.length then String.mk ('.' :: revToDot.reverse)
  else ""

/-- `path.basename(filePath, path.extname(filePath))`: last segment with the
extension stripped. -/
def fileNameOf (p : String) : String :=
  let b := (lastSegment p).data
  let ext := (extnameOf p).data
  String.mk (b.take (b.length - ext.length))

/-- generateComponentId (index.ts lines 115-123):
`{componentName}_{fileName}_{line}_{column}`. -/
def generateComponentId (componentName filePath : String) (line column : Nat) : String :=
  componentName ++ "_" ++ fileNameOf filePath ++ "_" ++ toString line ++ "_" ++ toString column

/-- The attribute list transformCode builds for one element
(index.ts lines 233-253): component id first, then optionally file, line and
column, then the component name. -/
def buildAttributes (opts : TaggerOptions) (componentId relFile elementName : String)
    (line column : Nat) : List (String × String) :=
  [(opts.attributeName, componentId)]
    ++ (if opts.includeFilePath then [("data-0x-file", relFile)] else [])
    ++ (if opts.includeLineNumber then
          [("data-0x-line", toString line), ("data-0x-column", toString column)] else [])
    ++ [("data-0x-component", elementName)]

/-- The attributes injected for an element whose opening construct begins at
character index `i` of source `src`: transformCode takes the element's
`loc.start` from the parse and feeds it to `generateComponentId` and the
attribute list. -/
def taggedAttrsAt (opts : TaggerOptions) (src : List Char) (i : Nat)
    (elementName relFile : String) : List (String × String) :=
  let lc := babelPos src i
  buildAttributes opts (generateComponentId elementName relFile lc.1 lc.2)
    relFile elementName lc.1 lc.2

/-- Attribute lookup by name (first occurrence). -/
def findAttr (attrs : List (String × String)) (n : String) : Option String :=
  (attrs.find? (fun a => a.1 == n)).map (fun a => a.2)

end Tagger

namespace Tagger

/-- C4 counterexample: for the source `<div/>` whose element opens at index 0
(line 1, column 0 in Babel's convention), the injected `data-0x-column` value
is `"0"`, not the 1-based column `"1"` the claim requires. -/
theorem C4_counterexample :
    findAttr (taggedAttrsAt defaultOptions "<div/>".data 0 "div" "src/App.tsx")
        "data-0x-column" = some "0" ∧
    toString (specZeroBasedColumn "<div/>".data 0 + 1) = "1" ∧
    ("0" : String) ≠ "1" := by
  refine ⟨by decide, by decide, by decide⟩

/-- C4 (amended): the injected `data-0x-line` value is the 1-based line of the
element's opening construct, but the injected `data-0x-column` value is its
0-based column (Babel's convention), one less than the 1-based column. -/
theorem C4_line_one_based_column_zero_based
    (opts : TaggerOptions) (src : List Char) (i : Nat) (elementName relFile : String)
    (hln : opts.includeLineNumber = true)
    (hattr : opts.attributeName = "data-0x-component-id") :
    findAttr (taggedAttrsAt opts src i elementName relFile) "data-0x-line"
        = some (toString (specOneBasedLine src i)) ∧
    findAttr (taggedAttrsAt opts src i elementName relFile) "data-0x-column"
        = some (toString (specZeroBasedColumn src i)) ∧
    1 ≤ specOneBasedLine src i := by
  refine ⟨?_, ?_, by simp [specOneBasedLine]⟩ <;>
  · unfold taggedAttrsAt
    rw [babelPos_eq]
    by_cases hf : opts.includeFilePath <;>
      simp [buildAttributes, findAttr, hln, hattr, hf, List.find?]

/-- C4 witness: a two-line source with the element opening at line 2, column 2
(0-based), for which the injected values are `"2"` and `"2"` — the 1-based
column would be 3. -/
theorem C4_witness :
    defaultOptions.includeLineNumber = true ∧
    defaultOptions.attributeName = "data-0x-component-id" ∧
    findAttr (taggedAttrsAt defaultOptions "x\n  <div/>".data 4 "div" "src/App.tsx")
        "data-0x-line" = some (toString (specOneBasedLine "x\n  <div/>".data 4)) ∧
    findAttr (taggedAttrsAt defaultOptions "x\n  <div/>".data 4 "div" "src/App.tsx")
        "data-0x-column" = some (toString (specZeroBasedColumn "x\n  <div/>".data 4)) ∧
    specOneBasedLine "x\n  <div/>".data 4 = 2 ∧
    specZeroBasedColumn "x\n  <div/>".data 4 = 2 := by
  refine ⟨rfl, rfl, ?_, ?_, by decide, by decide⟩
  · exact (C4_line_one_based_column_zero_based defaultOptions "x\n  <div/>".data 4
      "div" "src/App.tsx" rfl rfl).1
  · exact (C4_line_one_based_column_zero_based defaultOptions "x\n  <div/>".data 4
      "div" "src/App.tsx" rfl rfl).2.1

end Tagger

namespace Tagger

/-! ### The transform pass (transformCode, index.ts lines 167-277)

Babel's traversal visits every `JSXElement` of the parse tree (including
elements nested in fragments and in other elements).  For each visited element
`shouldTagElement` rejects fragments and any element that already carries an
attribute named `data-0x-*`; elements without a source location are also
skipped.  A qualifying element gets the attribute list of `buildAttributes`
spliced in front of its first attribute (or before the tag close when it has
none), which at the tree level prepends the injected attributes to the
element's attribute list.  `modified` records whether anything was tagged;
transformCode returns `null` when nothing was. -/

/-- A JSX attribute as shouldTagElement classifies it: a `JSXAttribute` whose
name is a plain `JSXIdentifier`, or anything else (spread attributes,
namespaced names), which the identity check ignores. -/
inductive JSXAttr where
  | named (name : String) (value : String)
  | other (raw : String)
  deriving DecidableEq

mutual
inductive JSXNode where
  | element (name : String) (loc : Option (Nat × Nat)) (attrs : List JSXAttr)
      (children : JSXChildren)
  | fragment (children : JSXChildren)
  | text (s : String)
inductive JSXChildren where
  | nil
  | cons (hd : JSXNode) (tl : JSXChildren)
end

/-- The per-attribute test inside shouldTagElement (index.ts lines 143-148):
a named attribute whose name starts with `data-0x-`. -/
def isIdentityAttr : JSXAttr → Bool
  | .named n _ => List.isPrefixOf "data-0x-".data n.data
  | .other _ => false

/-- shouldTagElement (index.ts lines 135-151): never tag fragments, never tag
an element that already has a `data-0x-` attribute. -/
def shouldTagElement : JSXNode → Bool
  | .fragment _ => false
  | .element _ _ attrs _ => !(attrs.any isIdentityAttr)
  | .text _ => false

/-- The injected attributes of one element, as JSX attributes.  (For a
non-identifier element name the source uses `'UnknownComponent'`; the model
takes the already-resolved name as input.) -/
def injectedAttrs (opts : TaggerOptions) (relFile elementName : String)
    (line column : Nat) : List JSXAttr :=
  (buildAttributes opts (generateComponentId elementName relFile line column)
      relFile elementName line column).map
    (fun a => .named a.1 a.2)

mutual
/-- The effect of the traversal visitor on one node: attributes of qualifying
elements are prepended, children are always traversed; the Bool is the
`modified` flag. -/
def tagNode (opts : TaggerOptions) (relFile : String) : JSXNode → JSXNode × Bool
  | .text s => (.text s, false)
  | .fragment cs =>
    let r := tagChildren opts relFile cs
    (.fragment r.1, r.2)
  | .element name loc attrs cs =>
    let r := tagChildren opts relFile cs
    if attrs.any isIdentityAttr then
      (.element name loc attrs r.1, r.2)
    else
      match loc with
      | none => (.element name loc attrs r.1, r.2)
      | some lc =>
        (.element name (some lc)
          (injectedAttrs opts relFile name lc.1 lc.2 ++ attrs) r.1, true)
def tagChildren (opts : TaggerOptions) (relFile : String) : JSXChildren → JSXChildren × Bool
  | .nil => (.nil, false)
  | .cons n ns =>
    let a := tagNode opts relFile n
    let b := tagChildren opts relFile ns
    (.cons a.1 b.1, a.2 || b.2)
end

/-- transformCode's result at the tree level: `some` rewritten tree when
`modified`, `none` ("no transformation needed") otherwise. -/
def transformAST (opts : TaggerOptions) (relFile : String) (t : JSXNode) : Option JSXNode :=
  let r := tagNode opts relFile t
  if r.2 then some r.1 else none

/-- What the build pipeline keeps: the rewritten tree, or the input unchanged
when transformCode returned `null`. -/
def applyTransform (opts : TaggerOptions) (relFile : String) (t : JSXNode) : JSXNode :=
  (transformAST opts relFile t).getD t

theorem injectedAttrs_any_identity (opts : TaggerOptions) (relFile elementName : String)
    (line column : Nat) :
    (injectedAttrs opts relFile elementName line column).any isIdentityAttr = true := by
  unfold injectedAttrs buildAttributes
  simp only [List.map_append, List.any_append, List.any_cons, List.any_nil]
  have : isIdentityAttr (.named "data-0x-component" elementName) = true := by
    simp only [isIdentityAttr]
    decide
  simp [this]

mutual
theorem tagNode_fixed (opts : TaggerOptions) (relFile : String) (t : JSXNode) :
    tagNode opts relFile (tagNode opts relFile t).1 = ((tagNode opts relFile t).1, false) := by
  cases t with
  | text s => rfl
  | fragment cs =>
    have ih := tagChildren_fixed opts relFile cs
    simp only [tagNode, ih]
  | element name loc attrs cs =>
    have ih := tagChildren_fixed opts relFile cs
    by_cases hid : attrs.any isIdentityAttr = true
    · simp only [tagNode, if_pos hid, ih]
    · have hid' : attrs.any isIdentityAttr = false := by simpa using hid
      cases loc with
      | none =>
        simp only [tagNode, hid', Bool.false_eq_true, reduceIte, ih]
      | some lc =>
        have hinj : ((injectedAttrs opts relFile name lc.1 lc.2 ++ attrs).any isIdentityAttr)
            = true := by
          simp only [List.any_append, injectedAttrs_any_identity, Bool.true_or]
        simp only [tagNode, hid', Bool.false_eq_true, reduceIte, hinj, ih]
theorem tagChildren_fixed (opts : TaggerOptions) (relFile : String) (l : JSXChildren) :
    tagChildren opts relFile (tagChildren opts relFile l).1
      = ((tagChildren opts relFile l).1, false) := by
  cases l with
  | nil => rfl
  | cons n ns =>
    have ih1 := tagNode_fixed opts relFile n
    have ih2 := tagChildren_fixed opts relFile ns
    simp only [tagChildren, ih1, ih2, Bool.or_self]
end

end Tagger

namespace Tagger

/-- C5: the Tagger transform is idempotent: transforming the kept output of a
transform reports "no transformation needed" (`none`), so transforming twice
yields the same output as transforming once; and an element carrying the
injected identity attributes is never re-tagged (`shouldTagElement` rejects
it), so no element receives duplicate identity attributes. -/
theorem C5_transform_idempotent (opts : TaggerOptions) (relFile : String) (t : JSXNode) :
    transformAST opts relFile (applyTransform opts relFile t) = none ∧
    applyTransform opts relFile (applyTransform opts relFile t)
      = applyTransform opts relFile t ∧
    (∀ (name : String) (loc : Option (Nat × Nat)) (attrs : List JSXAttr)
        (cs : JSXChildren) (line column : Nat),
      shouldTagElement
        (.element name loc (injectedAttrs opts relFile name line column ++ attrs) cs)
        = false) := by
  refine ⟨?_, ?_, ?_⟩
  · unfold applyTransform transformAST
    cases hm : (tagNode opts relFile t).2 with
    | false => simp [hm]
    | true => simp [hm, tagNode_fixed]
  · unfold applyTransform transformAST
    cases hm : (tagNode opts relFile t).2 with
    | false => simp [hm]
    | true => simp [hm, tagNode_fixed]
  · intro name loc attrs cs line column
    unfold shouldTagElement
    simp only [List.any_append, injectedAttrs_any_identity, Bool.true_or, Bool.not_true]

end Tagger

namespace Tagger

/-! ### Insertion-point computation and text splice (index.ts lines 217-256)

transformCode computes `insertPos = code.indexOf('>', nameEnd.index)`; if the
element has attributes it overrides this with the first attribute's start
index; otherwise, if the character just before the found `>` is `/`, it steps
one position left.  The attribute text `' ' + attributes.join(' ')` is then
spliced in (`s.appendLeft`).  A parsed opening element always contains a `>`
after the tag name, so indexOf never fails here; the model defaults a failed
search to the end of the code. -/

/-- `code.indexOf(ch, start)` on a character list (`none` for JS `-1`). -/
def indexOfFrom (s : List Char) (ch : Char) (start : Nat) : Option Nat :=
  match s, start with
  | [], _ => none
  | c :: rest, 0 => if c = ch then some 0 else (indexOfFrom rest ch 0).map (· + 1)
  | _ :: rest, start + 1 => (indexOfFrom rest ch start).map (· + 1)

/-- `code[i]` on a character list. -/
def charAt (s : List Char) (i : Nat) : Option Char :=
  match s, i with
  | [], _ => none
  | c :: _, 0 => some c
  | _ :: rest, i + 1 => charAt rest i

/-- Last character of a character list. -/
def lastChar : List Char → Option Char
  | [] => none
  | [c] => some c
  | _ :: rest => lastChar rest

/-- The insertion position of transformCode (index.ts lines 217-231). -/
def insertionPos (code : List Char) (nameEndIdx : Nat) (firstAttrStart : Option Nat) : Nat :=
  let p := (indexOfFrom code '>' nameEndIdx).getD code.length
  match firstAttrStart with
  | some a => a
  | none => if charAt code (p - 1) = some '/' then p - 1 else p

/-- `s.appendLeft(pos, ins)`: insert `ins` immediately before index `pos`. -/
def spliceAt (code : List Char) (pos : Nat) (ins : List Char) : List Char :=
  code.take pos ++ ins ++ code.drop pos

/-- The spliced attribute text `' ' + attributes.join(' ')`, each attribute
rendered `name="value"` (index.ts lines 233-253). -/
def attributesText (opts : TaggerOptions) (componentId relFile elementName : String)
    (line column : Nat) : List Char :=
  ' ' :: (String.intercalate " "
    ((buildAttributes opts componentId relFile elementName line column).map
      (fun a => a.1 ++ "=\"" ++ a.2 ++ "\""))).data

theorem spliceAt_append (A B ins : List Char) :
    spliceAt (A ++ B) A.length ins = A ++ ins ++ B := by
  induction A with
  | nil => simp [spliceAt]
  | cons a A ih =>
    simp only [spliceAt, List.cons_append, List.length_cons, List.take_succ_cons,
      List.drop_succ_cons] at *
    simp [ih]

theorem indexOfFrom_append_left (A l : List Char) (ch : Char) :
    indexOfFrom (A ++ l) ch A.length = (indexOfFrom l ch 0).map (· + A.length) := by
  induction A with
  | nil =>
    cases h : indexOfFrom l ch 0 <;> simp [h]
  | cons a A ih =>
    simp only [List.cons_append, List.length_cons, indexOfFrom, ih]
    cases h : indexOfFrom l ch 0 <;> simp [h, ih, Nat.add_assoc]

theorem indexOfFrom_first_hit (ws rest : List Char) (ch : Char) (h : ch ∉ ws) :
    indexOfFrom (ws ++ ch :: rest) ch 0 = some ws.length := by
  induction ws with
  | nil => simp [indexOfFrom]
  | cons w ws ih =>
    simp only [List.mem_cons, not_or] at h
    rw [show ((w :: ws) ++ ch :: rest) = w :: (ws ++ ch :: rest) from rfl]
    rw [show indexOfFrom (w :: (ws ++ ch :: rest)) ch 0
          = if w = ch then some 0 else (indexOfFrom (ws ++ ch :: rest) ch 0).map (· + 1)
        from rfl]
    rw [if_neg (fun hh => h.1 hh.symm), ih h.2]
    simp

theorem charAt_append_pred (X l : List Char) (h : X ≠ []) :
    charAt (X ++ l) (X.length - 1) = lastChar X := by
  induction X with
  | nil => contradiction
  | cons a X ih =>
    cases X with
    | nil => simp [charAt, lastChar]
    | cons b X' =>
      have h2 := ih (by simp)
      simp only [List.length_cons, Nat.add_sub_cancel] at h2 ⊢
      exact h2

end Tagger

namespace Tagger

theorem lastChar_append (l1 l2 : List Char) (h : l2 ≠ []) :
    lastChar (l1 ++ l2) = lastChar l2 := by
  induction l1 with
  | nil => rfl
  | cons a l1 ih =>
    cases hl : l1 ++ l2 with
    | nil =>
      rcases List.append_eq_nil.mp hl with ⟨-, h2⟩
      exact absurd h2 h
    | cons b rest =>
      rw [show ((a :: l1) ++ l2) = a :: (l1 ++ l2) from rfl, hl]
      rw [show lastChar (a :: b :: rest) = lastChar (b :: rest) from rfl]
      rw [← hl, ih]

theorem lastChar_concat (l : List Char) (c : Char) : lastChar (l ++ [c]) = some c := by
  rw [lastChar_append l [c] (by simp)]
  rfl

/-- C6 (amended): the injected attribute text lands (1) immediately before the
first existing attribute when the element has attributes, keeping the author
attribute text intact; (2) immediately before the closing `>` when there are
no attributes and the element is not self-closing; (3) immediately before the
`/` when the element is self-closing with `/` directly followed by `>`;
but (4) when whitespace separates the `/` from the `>`, the attributes are
inserted before the `>`, i.e. AFTER the `/` (not before the `/` as the claim
states for every self-closing element).  `P` is the code up to the end of the
element's tag name, `ws`/`ws1`/`ws2` the whitespace runs of the opening tag. -/
theorem C6_insertion_placement :
    (∀ (P ws attrText post ins : List Char),
      spliceAt (P ++ ws ++ attrText ++ post)
          (insertionPos (P ++ ws ++ attrText ++ post) P.length (some (P ++ ws).length)) ins
        = P ++ ws ++ ins ++ attrText ++ post) ∧
    (∀ (P ws post ins : List Char), P ≠ [] → '>' ∉ ws →
      lastChar (P ++ ws) ≠ some '/' →
      spliceAt (P ++ ws ++ '>' :: post)
          (insertionPos (P ++ ws ++ '>' :: post) P.length none) ins
        = P ++ ws ++ ins ++ '>' :: post) ∧
    (∀ (P ws post ins : List Char), '>' ∉ ws →
      spliceAt (P ++ ws ++ '/' :: '>' :: post)
          (insertionPos (P ++ ws ++ '/' :: '>' :: post) P.length none) ins
        = P ++ ws ++ ins ++ '/' :: '>' :: post) ∧
    (∀ (P ws1 ws2 post ins : List Char), '>' ∉ ws1 → '>' ∉ ws2 → ws2 ≠ [] →
      lastChar ws2 ≠ some '/' →
      spliceAt (P ++ ws1 ++ '/' :: (ws2 ++ '>' :: post))
          (insertionPos (P ++ ws1 ++ '/' :: (ws2 ++ '>' :: post)) P.length none) ins
        = P ++ ws1 ++ '/' :: (ws2 ++ ins ++ '>' :: post)) := by
  refine ⟨?_, ?_, ?_, ?_⟩
  · intro P ws attrText post ins
    rw [show insertionPos (P ++ ws ++ attrText ++ post) P.length (some (P ++ ws).length)
          = (P ++ ws).length from rfl]
    rw [show (P ++ ws ++ attrText ++ post) = (P ++ ws) ++ (attrText ++ post) from by
      simp [List.append_assoc]]
    rw [spliceAt_append]
    simp [List.append_assoc]
  · intro P ws post ins hP hgt hsl
    simp only [List.append_assoc]
    have hne : P ++ ws ≠ [] := fun hc => hP (List.append_eq_nil.mp hc).1
    have hidx : indexOfFrom (P ++ (ws ++ '>' :: post)) '>' P.length
        = some (ws.length + P.length) := by
      rw [indexOfFrom_append_left, indexOfFrom_first_hit ws post '>' hgt]
      rfl
    have hassoc : P ++ (ws ++ '>' :: post) = (P ++ ws) ++ '>' :: post :=
      (List.append_assoc P ws _).symm
    have hchar : charAt (P ++ (ws ++ '>' :: post)) (ws.length + P.length - 1)
        = lastChar (P ++ ws) := by
      rw [hassoc,
        show ws.length + P.length - 1 = (P ++ ws).length - 1 from by
          simp only [List.length_append]; omega]
      exact charAt_append_pred _ _ hne
    have hpos : insertionPos (P ++ (ws ++ '>' :: post)) P.length none
        = ws.length + P.length := by
      unfold insertionPos
      rw [hidx]
      simp only [Option.getD_some, hchar]
      rw [if_neg hsl]
    rw [hpos,
      show ws.length + P.length = (P ++ ws).length from by
        simp only [List.length_append]; omega,
      hassoc, spliceAt_append]
    simp [List.append_assoc]
  · intro P ws post ins hgt
    simp only [List.append_assoc]
    have hgt2 : '>' ∉ ws ++ ['/'] := by
      simp only [List.mem_append, List.mem_singleton]
      rintro (h | h)
      · exact hgt h
      · cases h
    have hidx : indexOfFrom (P ++ (ws ++ '/' :: '>' :: post)) '>' P.length
        = some (ws.length + 1 + P.length) := by
      rw [show ws ++ '/' :: '>' :: post = (ws ++ ['/']) ++ '>' :: post from by
        simp [List.append_assoc]]
      rw [indexOfFrom_append_left, indexOfFrom_first_hit _ post '>' hgt2]
      simp
    have hassoc : P ++ (ws ++ '/' :: '>' :: post) = (P ++ ws ++ ['/']) ++ '>' :: post := by
      simp [List.append_assoc]
    have hchar : charAt (P ++ (ws ++ '/' :: '>' :: post)) (ws.length + 1 + P.length - 1)
        = some '/' := by
      rw [hassoc,
        show ws.length + 1 + P.length - 1 = (P ++ ws ++ ['/']).length - 1 from by
          simp only [List.length_append, List.length_singleton]; omega]
      rw [charAt_append_pred _ _ (by simp), lastChar_concat]
    have hpos : insertionPos (P ++ (ws ++ '/' :: '>' :: post)) P.length none
        = ws.length + 1 + P.length - 1 := by
      unfold insertionPos
      rw [hidx]
      simp only [Option.getD_some, hchar]
      simp
    have hassoc2 : P ++ (ws ++ '/' :: '>' :: post) = (P ++ ws) ++ '/' :: '>' :: post :=
      (List.append_assoc P ws _).symm
    rw [hpos,
      show ws.length + 1 + P.length - 1 = (P ++ ws).length from by
        simp only [List.length_append]; omega,
      hassoc2, spliceAt_append]
    simp [List.append_assoc]
  · intro P ws1 ws2 post ins h1 h2 hne hsl
    simp only [List.append_assoc]
    have hW : '>' ∉ ws1 ++ '/' :: ws2 := by
      simp only [List.mem_append, List.mem_cons]
      rintro (h | h | h)
      · exact h1 h
      · cases h
      · exact h2 h
    have hidx : indexOfFrom (P ++ (ws1 ++ '/' :: (ws2 ++ '>' :: post))) '>' P.length
        = some ((ws1 ++ '/' :: ws2).length + P.length) := by
      rw [show ws1 ++ '/' :: (ws2 ++ '>' :: post) = (ws1 ++ '/' :: ws2) ++ '>' :: post from by
        simp [List.append_assoc]]
      rw [indexOfFrom_append_left, indexOfFrom_first_hit _ post '>' hW]
      rfl
    have hassoc : P ++ (ws1 ++ '/' :: (ws2 ++ '>' :: post))
        = (P ++ (ws1 ++ '/' :: ws2)) ++ '>' :: post := by
      simp [List.append_assoc]
    have hlast : lastChar (P ++ (ws1 ++ '/' :: ws2)) = lastChar ws2 := by
      rw [lastChar_append _ _ (by simp), lastChar_append ws1 _ (by simp),
        show ('/' :: ws2) = ['/'] ++ ws2 from rfl, lastChar_append _ _ hne]
    have hchar : charAt (P ++ (ws1 ++ '/' :: (ws2 ++ '>' :: post)))
        ((ws1 ++ '/' :: ws2).length + P.length - 1) = lastChar ws2 := by
      rw [hassoc,
        show (ws1 ++ '/' :: ws2).length + P.length - 1
            = (P ++ (ws1 ++ '/' :: ws2)).length - 1 from by
          simp only [List.length_append]; omega]
      rw [charAt_append_pred _ _ (by simp), hlast]
    have hpos : insertionPos (P ++ (ws1 ++ '/' :: (ws2 ++ '>' :: post))) P.length none
        = (ws1 ++ '/' :: ws2).length + P.length := by
      unfold insertionPos
      rw [hidx]
      simp only [Option.getD_some, hchar]
      rw [if_neg hsl]
    rw [hpos,
      show (ws1 ++ '/' :: ws2).length + P.length = (P ++ (ws1 ++ '/' :: ws2)).length from by
        simp only [List.length_append]; omega,
      hassoc, spliceAt_append]
    simp [List.append_assoc]

/-- C6 counterexample: for the valid self-closing source `<br / >` (whitespace
between `/` and `>`), the insertion position is 6 — before the `>` — while the
`/` sits at index 4, so the attributes are inserted AFTER the `/` (malformed
output), not immediately before the `/` as the claim states. -/
theorem C6_counterexample :
    insertionPos "<br / >".data 3 none = 6 ∧
    indexOfFrom "<br / >".data '/' 0 = some 4 ∧
    (6 : Nat) ≠ 4 ∧
    spliceAt "<br / >".data 6 " x=\"1\"".data = "<br /  x=\"1\">".data := by
  refine ⟨by decide, by decide, by decide, by decide⟩

/-- C6 witness: concrete instances of all four placement cases. -/
theorem C6_witness :
    spliceAt ("<div".data ++ " ".data ++ "className=\"a\"".data ++ ">x</div>".data)
        (insertionPos ("<div".data ++ " ".data ++ "className=\"a\"".data ++ ">x</div>".data)
          "<div".data.length (some ("<div".data ++ " ".data).length)) " i=\"1\"".data
      = "<div".data ++ " ".data ++ " i=\"1\"".data ++ "className=\"a\"".data ++ ">x</div>".data ∧
    spliceAt ("<div".data ++ ([] : List Char) ++ '>' :: "x</div>".data)
        (insertionPos ("<div".data ++ ([] : List Char) ++ '>' :: "x</div>".data)
          "<div".data.length none) " i=\"1\"".data
      = "<div".data ++ ([] : List Char) ++ " i=\"1\"".data ++ '>' :: "x</div>".data ∧
    spliceAt ("<br".data ++ ([] : List Char) ++ '/' :: '>' :: "rest".data)
        (insertionPos ("<br".data ++ ([] : List Char) ++ '/' :: '>' :: "rest".data)
          "<br".data.length none) " i=\"1\"".data
      = "<br".data ++ ([] : List Char) ++ " i=\"1\"".data ++ '/' :: '>' :: "rest".data ∧
    spliceAt ("<br".data ++ " ".data ++ '/' :: (" ".data ++ '>' :: "rest".data))
        (insertionPos ("<br".data ++ " ".data ++ '/' :: (" ".data ++ '>' :: "rest".data))
          "<br".data.length none) " i=\"1\"".data
      = "<br".data ++ " ".data ++ '/' :: (" ".data ++ " i=\"1\"".data ++ '>' :: "rest".data) := by
  refine ⟨?_, ?_, ?_, ?_⟩
  · exact C6_insertion_placement.1 "<div".data " ".data "className=\"a\"".data
      ">x</div>".data " i=\"1\"".data
  · exact C6_insertion_placement.2.1 "<div".data [] "x</div>".data " i=\"1\"".data
      (by decide) (by decide) (by decide)
  · exact C6_insertion_placement.2.2.1 "<br".data [] "rest".data " i=\"1\"".data
      (by decide)
  · exact C6_insertion_placement.2.2.2 "<br".data " ".data " ".data "rest".data
      " i=\"1\"".data (by decide) (by decide) (by decide) (by decide)

end Tagger

namespace Tagger

/-! ### Parse-failure handling (index.ts lines 172-277 and 331-373)

transformCode's whole body runs in a try/catch: a parse failure is caught,
logged via console.error, and `null` is returned; the vite transform hook
passes `null` through, which means "keep the file unmodified".  The parse
outcome is an explicit `Except` here, and the log is collected as data. -/

/-- transformCode given the parse outcome of the file: catch branch logs and
returns `null`; success branch runs the tagging pass. -/
def transformCodeFromParse (opts : TaggerOptions) (relFile : String)
    (parsed : Except String JSXNode) : Option JSXNode × List String :=
  match parsed with
  | .error e => (none, ["[0x-tagger] Error transforming " ++ relFile ++ ": " ++ e])
  | .ok ast => (transformAST opts relFile ast, [])

/-- The code the build pipeline keeps for the file: a `null` transform result
leaves the input unchanged; otherwise the rewritten tree is printed. -/
def outputCode (code : String) (result : Option JSXNode) (printTree : JSXNode → String) :
    String :=
  match result with
  | none => code
  | some t => printTree t

end Tagger

namespace Tagger

/-- C7: a parse failure is caught (the model is total: the error branch
returns instead of propagating), logged (exactly one log entry), and the file
is returned unmodified (`null` result, so the pipeline keeps the input code). -/
theorem C7_parse_failure_recovered (opts : TaggerOptions) (relFile code e : String)
    (printTree : JSXNode → String) :
    (transformCodeFromParse opts relFile (Except.error e)).1 = none ∧
    outputCode code (transformCodeFromParse opts relFile (Except.error e)).1 printTree
      = code ∧
    (transformCodeFromParse opts relFile (Except.error e)).2.length = 1 :=
  ⟨rfl, rfl, rfl⟩

end Tagger

namespace Overlay

/-! ### The live document model (design-mode.js)

The overlay operates on the browser DOM: element nodes (with attributes, an
inline-style declaration and children), text nodes and comment nodes.  Inline
style is the element's CSSOM style declaration, a list of
(css-property-name, value) pairs in declaration order. -/

mutual
inductive DNode where
  | elem (tag : String) (attrs : List (String × String))
      (style : List (String × String)) (children : DNodeList)
  | text (s : String)
  | comment (s : String)
inductive DNodeList where
  | nil
  | cons (hd : DNode) (tl : DNodeList)
end

/-- `element.getAttribute(n)` (first binding; `null` when absent). -/
def getAttr (attrs : List (String × String)) (n : String) : Option String :=
  (attrs.find? (fun a => a.1 == n)).map (fun a => a.2)

/-! ### extractComponentData (design-mode.js lines 103-177)

`getDirectTextContent` walks the direct child nodes, concatenating the text
of text nodes (nodeType 3) and flagging any element node (nodeType 1); when a
child element exists the returned text is forced to the empty string,
otherwise it is the trimmed concatenation.  (The computed-style extraction
reads `window.getComputedStyle`, browser state outside stored document data,
and is not modelled.) -/

/-- JS `String.prototype.trim`: strip leading and trailing whitespace. -/
def jsTrim (s : String) : String :=
  String.mk (((s.data.dropWhile Char.isWhitespace).reverse.dropWhile
    Char.isWhitespace).reverse)

/-- The loop of getDirectTextContent: accumulated direct text (in document
order) and the has-child-elements flag. -/
def directTextInfo : DNodeList → String × Bool
  | .nil => ("", false)
  | .cons n ns =>
    let r := directTextInfo ns
    match n with
    | .elem _ _ _ _ => (r.1, true)
    | .text s => (s ++ r.1, r.2)
    | .comment _ => r

/-- getDirectTextContent's result `{text, hasChildElements}`. -/
def getDirectTextContent (cs : DNodeList) : String × Bool :=
  let r := directTextInfo cs
  (if r.2 then "" else jsTrim r.1, r.2)

/-- Element Description (the fields computed from stored document data). -/
structure ComponentData where
  componentId : Option String
  componentName : Option String
  file : Option String
  line : Option String
  column : Option String
  tagName : String
  className : String
  textContent : String
  hasChildElements : Bool
  tailwindClasses : List String
  deriving DecidableEq

/-- `className.split(/\s+/).filter(cls => cls.length > 0)`. -/
def splitClasses (s : String) : List String :=
  (s.split (fun c => c.isWhitespace)).filter (fun c => c.length > 0)

/-- extractComponentData on an element node (never called on other nodes;
they yield an all-empty record). -/
def extractComponentData : DNode → ComponentData
  | .elem tag attrs _ cs =>
    let ti := getDirectTextContent cs
    let cls := (getAttr attrs "class").getD ""
    { componentId := getAttr attrs "data-0x-component-id"
      componentName := getAttr attrs "data-0x-component"
      file := getAttr attrs "data-0x-file"
      line := getAttr attrs "data-0x-line"
      column := getAttr attrs "data-0x-column"
      tagName := tag.toLower
      className := cls
      textContent := ti.1
      hasChildElements := ti.2
      tailwindClasses := splitClasses cls }
  | _ =>
    { componentId := none, componentName := none, file := none, line := none
      column := none, tagName := "", className := "", textContent := ""
      hasChildElements := false, tailwindClasses := [] }

/-- Written from the spec's words: the child list contains an element node. -/
def containsElem : DNodeList → Bool
  | .nil => false
  | .cons (.elem _ _ _ _) _ => true
  | .cons _ ns => containsElem ns

theorem directTextInfo_snd_eq_containsElem (cs : DNodeList) :
    (directTextInfo cs).2 = containsElem cs := by
  cases cs with
  | nil => rfl
  | cons n ns =>
    have ih := directTextInfo_snd_eq_containsElem ns
    cases n with
    | elem tag attrs style cs' => rfl
    | text s =>
      simp only [directTextInfo, containsElem, ih]
    | comment s =>
      simp only [directTextInfo, containsElem, ih]

end Overlay

namespace Overlay

/-- C9: for every selected element that has at least one child element, the
Element Description's `textContent` is the empty string, even when the
element also has direct text of its own. -/
theorem C9_container_text_empty (tag : String) (attrs style : List (String × String))
    (cs : DNodeList) (h : containsElem cs = true) :
    (extractComponentData (.elem tag attrs style cs)).textContent = "" := by
  have h2 : (directTextInfo cs).2 = true := by
    rw [directTextInfo_snd_eq_containsElem]
    exact h
  simp [extractComponentData, getDirectTextContent, h2]

/-- C9 witness: a div with direct text `"hi"` and a span child: its
description text is empty. -/
theorem C9_witness :
    containsElem (.cons (.text "hi") (.cons (.elem "span" [] [] .nil) .nil)) = true ∧
    (extractComponentData (.elem "div" [] []
        (.cons (.text "hi") (.cons (.elem "span" [] [] .nil) .nil)))).textContent = "" :=
  ⟨rfl, C9_container_text_empty "div" [] []
    (.cons (.text "hi") (.cons (.elem "span" [] [] .nil) .nil)) rfl⟩

end Overlay

namespace Overlay

/-! ### Style updates in updateElement (design-mode.js lines 510-531)

For each `(property, value)` entry: an empty string or the literal `'0px'`
removes the inline property (`style.removeProperty` with the camelCase name
converted to kebab-case); otherwise a truthy value different from
`'rgb(0, 0, 0)'` is assigned (`element.style[property] = value`, which sets
the same CSS property); anything else — in particular exactly
`'rgb(0, 0, 0)'` — does nothing. -/

/-- `property.replace(/([A-Z])/g, '-$1').toLowerCase()`. -/
def camelToKebab (p : String) : String :=
  String.mk (p.data.foldr (fun c acc =>
    if c.isUpper then '-' :: c.toLower :: acc else c.toLower :: acc) [])

/-- `style.removeProperty(n)` on the declaration list. -/
def removeProperty (style : List (String × String)) (n : String) : List (String × String) :=
  style.filter (fun p => p.1 != n)

/-- `element.style[prop] = v`: update the existing declaration in place, or
append a new one. -/
def setProperty (style : List (String × String)) (n v : String) : List (String × String) :=
  if style.any (fun p => p.1 == n) then
    style.map (fun p => if p.1 == n then (n, v) else p)
  else style ++ [(n, v)]

/-- Current value of an inline style property (`none` when not set). -/
def getProperty (style : List (String × String)) (n : String) : Option String :=
  (style.find? (fun p => p.1 == n)).map (fun p => p.2)

/-- One iteration of the `Object.entries(styles).forEach` loop. -/
def applyStyleEntry (style : List (String × String)) (property value : String) :
    List (String × String) :=
  if value == "" || value == "0px" then
    removeProperty style (camelToKebab property)
  else if value != "" && value != "rgb(0, 0, 0)" then
    setProperty style (camelToKebab property) value
  else
    style

theorem getProperty_removeProperty (style : List (String × String)) (n : String) :
    getProperty (removeProperty style n) n = none := by
  induction style with
  | nil => rfl
  | cons p ps ih =>
    by_cases h : p.1 == n
    · have hb : (p.1 != n) = false := by simp [bne, h]
      simp only [removeProperty, List.filter_cons, hb, Bool.false_eq_true, reduceIte]
      exact ih
    · have hb : (p.1 != n) = true := by simpa [bne_iff_ne] using h
      have hf : (p.1 == n) = false := by simpa using h
      simp only [removeProperty, List.filter_cons, hb, reduceIte]
      simp only [getProperty, List.find?_cons, hf, Bool.false_eq_true, reduceIte]
      exact ih

theorem getProperty_setProperty (style : List (String × String)) (n v : String) :
    getProperty (setProperty style n v) n = some v := by
  by_cases hany : style.any (fun p => p.1 == n) = true
  · rw [setProperty, if_pos hany]
    induction style with
    | nil => simp at hany
    | cons p ps ih =>
      by_cases h : p.1 == n
      · simp only [List.map_cons, h, reduceIte, getProperty, List.find?_cons, beq_self_eq_true]
        rfl
      · have hf : (p.1 == n) = false := by simpa using h
        simp only [List.any_cons, hf, Bool.false_or] at hany
        simp only [List.map_cons, hf, Bool.false_eq_true, reduceIte, getProperty,
          List.find?_cons, hf] at ih ⊢
        exact ih hany
  · rw [setProperty, if_neg hany]
    have hall : ∀ p ∈ style, (p.1 == n) = false := by
      intro p hp
      by_contra hc
      exact hany (List.any_eq_true.mpr ⟨p, hp, by simpa using hc⟩)
    induction style with
    | nil => simp [getProperty, List.find?_cons]
    | cons p ps ih =>
      have hf := hall p (by simp)
      simp only [List.cons_append, getProperty, List.find?_cons, hf, Bool.false_eq_true,
        reduceIte]
      exact ih (fun hc => hany (by simp [List.any_cons] at hc ⊢; right; exact hc))
        (fun q hq => hall q (by simp [hq]))

end Overlay

namespace Overlay

/-- C10: a style entry whose value is exactly `'rgb(0, 0, 0)'` neither sets
nor removes the property: the inline style declaration is unchanged. -/
theorem C10_rgb_black_untouched (style : List (String × String)) (property : String) :
    applyStyleEntry style property "rgb(0, 0, 0)" = style := by
  unfold applyStyleEntry
  rw [if_neg (by decide), if_neg (by decide)]

/-- C3 counterexample: the zero-length dimension value `'0em'` does not remove
the property — it is written literally (the code only recognizes `''` and the
exact string `'0px'`). -/
theorem C3_counterexample :
    applyStyleEntry [] "width" "0em" = [("width", "0em")] ∧
    getProperty (applyStyleEntry [] "width" "0em") "width" = some "0em" ∧
    some "0em" ≠ (none : Option String) := by
  refine ⟨by decide, by decide, by decide⟩

/-- C3 (amended): an empty string or the exact string `'0px'` removes the
inline property; any other value except `'rgb(0, 0, 0)'` — including other
zero-length dimensions such as `'0'`, `'0em'`, `'0%'` — is set literally. -/
theorem C3_style_reset (style : List (String × String)) (property : String) :
    getProperty (applyStyleEntry style property "") (camelToKebab property) = none ∧
    getProperty (applyStyleEntry style property "0px") (camelToKebab property) = none ∧
    (∀ v : String, v ≠ "" → v ≠ "0px" → v ≠ "rgb(0, 0, 0)" →
      getProperty (applyStyleEntry style property v) (camelToKebab property) = some v) := by
  refine ⟨?_, ?_, ?_⟩
  · unfold applyStyleEntry
    rw [if_pos (by decide)]
    exact getProperty_removeProperty style (camelToKebab property)
  · unfold applyStyleEntry
    rw [if_pos (by decide)]
    exact getProperty_removeProperty style (camelToKebab property)
  · intro v h1 h2 h3
    unfold applyStyleEntry
    rw [if_neg (by simp [h1, h2]), if_pos (by simp [h1, h3])]
    exact getProperty_setProperty style (camelToKebab property) v

/-- C3 witness: clearing `padding` with `''` and `'0px'` removes it; `'0%'`
is written literally. -/
theorem C3_witness :
    getProperty (applyStyleEntry [("padding", "4px")] "padding" "")
        (camelToKebab "padding") = none ∧
    getProperty (applyStyleEntry [("padding", "4px")] "padding" "0px")
        (camelToKebab "padding") = none ∧
    ("0%" ≠ "" ∧ "0%" ≠ "0px" ∧ "0%" ≠ "rgb(0, 0, 0)") ∧
    getProperty (applyStyleEntry [("padding", "4px")] "padding" "0%")
        (camelToKebab "padding") = some "0%" := by
  refine ⟨(C3_style_reset [("padding", "4px")] "padding").1,
    (C3_style_reset [("padding", "4px")] "padding").2.1,
    ⟨by decide, by decide, by decide⟩,
    (C3_style_reset [("padding", "4px")] "padding").2.2 "0%"
      (by decide) (by decide) (by decide)⟩

end Overlay

namespace Overlay

/-! ### updateElement (design-mode.js lines 457-536)

`updateElement(updates)` destructures only `componentId`, `textContent` and
`styles` — an `instanceIndex` carried by the payload is never read.  The
target is resolved with `document.querySelector('[data-0x-component-id=…]')`,
the FIRST matching element in document order (preorder); when absent the call
logs and returns with no mutation.  The deferred callback then:
  * text: walks ALL text-node descendants with a TreeWalker, keeps the ones
    with non-whitespace content, and overwrites the first one; when none
    exists, assigns `element.textContent` directly if the element has no
    child elements and otherwise skips;
  * styles: runs `applyStyleEntry` over the entries in order. -/

/-- The `update-element` message payload. -/
structure UpdatePayload where
  componentId : String
  instanceIndex : Option Nat
  textContent : Option String
  styles : Option (List (String × String))

/-- The CSS selector test `[data-0x-component-id="cid"]` on one node. -/
def matchesId (cid : String) : DNode → Bool
  | .elem _ attrs _ _ => getAttr attrs "data-0x-component-id" == some cid
  | _ => false

mutual
/-- The TreeWalker pass: overwrite the first text node (document order,
whole subtree) whose content has non-whitespace; the Bool reports whether one
was found. -/
def replaceFirstText (t : String) : DNode → DNode × Bool
  | .text s => if jsTrim s != "" then (.text t, true) else (.text s, false)
  | .comment s => (.comment s, false)
  | .elem tag attrs style cs =>
    let r := replaceFirstTextList t cs
    (.elem tag attrs style r.1, r.2)
def replaceFirstTextList (t : String) : DNodeList → DNodeList × Bool
  | .nil => (.nil, false)
  | .cons n ns =>
    let a := replaceFirstText t n
    if a.2 then (.cons a.1 ns, true)
    else
      let b := replaceFirstTextList t ns
      (.cons n b.1, b.2)
end

/-- `element.children.length`: number of child element nodes. -/
def childElemCount : DNodeList → Nat
  | .nil => 0
  | .cons (.elem _ _ _ _) ns => childElemCount ns + 1
  | .cons _ ns => childElemCount ns

/-- The text branch of the deferred update (design-mode.js lines 474-508).
`element.textContent = t` replaces all children by a single text node (none
for the empty string). -/
def applyTextUpdate (t : String) : DNode → DNode
  | .elem tag attrs style cs =>
    let r := replaceFirstTextList t cs
    if r.2 then .elem tag attrs style r.1
    else if childElemCount cs == 0 then
      .elem tag attrs style (if t == "" then .nil else .cons (.text t) .nil)
    else .elem tag attrs style cs
  | n => n

/-- The style branch of the deferred update (design-mode.js lines 510-531). -/
def applyStylesUpdate (sty : Option (List (String × String))) : DNode → DNode
  | .elem tag attrs st cs =>
    match sty with
    | none => .elem tag attrs st cs
    | some entries =>
      .elem tag attrs (entries.foldl (fun acc e => applyStyleEntry acc e.1 e.2) st) cs
  | n => n

/-- The whole deferred mutation applied to the resolved element: text first,
then styles. -/
def applyUpdates (u : UpdatePayload) (n : DNode) : DNode :=
  applyStylesUpdate u.styles
    (match u.textContent with
     | none => n
     | some t => applyTextUpdate t n)

mutual
/-- `document.querySelector` + in-place mutation: replace the first node (in
preorder document order) matching the component id by `f` of it; the Bool
reports whether a match was found.  The subtree of the replaced node is not
searched further. -/
def updateFirst (cid : String) (f : DNode → DNode) : DNode → DNode × Bool
  | .text s => (.text s, false)
  | .comment s => (.comment s, false)
  | .elem tag attrs style cs =>
    if matchesId cid (.elem tag attrs style cs) then
      (f (.elem tag attrs style cs), true)
    else
      let r := updateFirstList cid f cs
      (.elem tag attrs style r.1, r.2)
def updateFirstList (cid : String) (f : DNode → DNode) : DNodeList → DNodeList × Bool
  | .nil => (.nil, false)
  | .cons n ns =>
    let a := updateFirst cid f n
    if a.2 then (.cons a.1 ns, true)
    else
      let b := updateFirstList cid f ns
      (.cons n b.1, b.2)
end

/-- updateElement: resolve by component id (first match in document order) and
apply the deferred mutation; a resolution miss leaves the document unchanged. -/
def updateElement (doc : DNode) (u : UpdatePayload) : DNode :=
  (updateFirst u.componentId (applyUpdates u) doc).1

mutual
/-- All element nodes matching the component id, in document (preorder)
order — what `querySelectorAll('[data-0x-component-id=…]')` would list. -/
def matchesOf (cid : String) : DNode → List DNode
  | .text _ => []
  | .comment _ => []
  | .elem tag attrs style cs =>
    (if matchesId cid (.elem tag attrs style cs) then [.elem tag attrs style cs] else [])
      ++ matchesOfList cid cs
def matchesOfList (cid : String) : DNodeList → List DNode
  | .nil => []
  | .cons n ns => matchesOf cid n ++ matchesOfList cid ns
end

/-- Child list of a node (empty for non-elements). -/
def childrenOf : DNode → DNodeList
  | .elem _ _ _ cs => cs
  | _ => .nil

/-- Concatenated direct text of a node's children (document order, untrimmed). -/
def directTextConcat (n : DNode) : String :=
  (directTextInfo (childrenOf n)).1

end Overlay

namespace Overlay

mutual
theorem updateFirst_found (cid : String) (f : DNode → DNode) (n : DNode) :
    (updateFirst cid f n).2 = !(matchesOf cid n).isEmpty := by
  cases n with
  | text s => rfl
  | comment s => rfl
  | elem tag attrs style cs =>
    have ih := updateFirstList_found cid f cs
    by_cases h : matchesId cid (.elem tag attrs style cs) = true
    · simp [updateFirst, matchesOf, h]
    · have h' : matchesId cid (.elem tag attrs style cs) = false := by simpa using h
      simp [updateFirst, matchesOf, h', ih]
theorem updateFirstList_found (cid : String) (f : DNode → DNode) (l : DNodeList) :
    (updateFirstList cid f l).2 = !(matchesOfList cid l).isEmpty := by
  cases l with
  | nil => rfl
  | cons n ns =>
    have ih1 := updateFirst_found cid f n
    have ih2 := updateFirstList_found cid f ns
    by_cases ha : (updateFirst cid f n).2 = true
    · have hne : (matchesOf cid n).isEmpty = false := by
        rw [ih1] at ha
        simpa using ha
      obtain ⟨m, rest, hm⟩ : ∃ m rest, matchesOf cid n = m :: rest := by
        cases hmo : matchesOf cid n with
        | nil => rw [hmo] at hne; simp at hne
        | cons a b => exact ⟨a, b, rfl⟩
      simp [updateFirstList, ha, matchesOfList, hm]
    · have ha' : (updateFirst cid f n).2 = false := by simpa using ha
      have hem : matchesOf cid n = [] := by
        rw [ih1] at ha'
        cases hmo : matchesOf cid n with
        | nil => rfl
        | cons a b => rw [hmo] at ha'; simp at ha'
      simp [updateFirstList, ha', matchesOfList, hem, ih2]
end

mutual
theorem updateFirst_matches_spec (cid : String) (f : DNode → DNode)
    (hid : ∀ m, matchesId cid m = true → matchesId cid (f m) = true)
    (hch : ∀ m, matchesId cid m = true → matchesOfList cid (childrenOf m) = [] →
      matchesOfList cid (childrenOf (f m)) = []) :
    ∀ n : DNode,
      (∀ m rest, matchesOf cid n = m :: rest → matchesOfList cid (childrenOf m) = []) →
      matchesOf cid (updateFirst cid f n).1
        = match matchesOf cid n with
          | [] => []
          | m :: rest => f m :: rest := by
  intro n hnest
  cases n with
  | text s => rfl
  | comment s => rfl
  | elem tag attrs style cs =>
    by_cases h : matchesId cid (.elem tag attrs style cs) = true
    · have hm : matchesOf cid (.elem tag attrs style cs)
          = (.elem tag attrs style cs) :: matchesOfList cid cs := by
        simp [matchesOf, h]
      have hcs : matchesOfList cid cs = [] := by
        have := hnest (.elem tag attrs style cs) (matchesOfList cid cs) hm
        simpa [childrenOf] using this
      have hup : (updateFirst cid f (.elem tag attrs style cs)).1
          = f (.elem tag attrs style cs) := by
        simp [updateFirst, h]
      rw [hup, hm, hcs]
      have hid' := hid _ h
      have hch' := hch _ h (by simpa [childrenOf] using hcs)
      show matchesOf cid (f (.elem tag attrs style cs)) = [f (.elem tag attrs style cs)]
      cases hfm : f (.elem tag attrs style cs) with
      | text s2 =>
        rw [hfm] at hid'
        simp [matchesId] at hid'
      | comment s2 =>
        rw [hfm] at hid'
        simp [matchesId] at hid'
      | elem tg2 at2 st2 cs2 =>
        rw [hfm] at hid' hch'
        simp only [childrenOf] at hch'
        simp [matchesOf, hid', hch']
    · have h' : matchesId cid (.elem tag attrs style cs) = false := by simpa using h
      have hm : matchesOf cid (.elem tag attrs style cs) = matchesOfList cid cs := by
        simp [matchesOf, h']
      have hup : (updateFirst cid f (.elem tag attrs style cs)).1
          = .elem tag attrs style (updateFirstList cid f cs).1 := by
        simp [updateFirst, h']
      have ihl := updateFirstList_matches_spec cid f hid hch cs (by
        intro m rest hmr
        exact hnest m rest (by rw [hm]; exact hmr))
      rw [hup, hm]
      have h'' : matchesId cid (.elem tag attrs style (updateFirstList cid f cs).1)
          = false := h'
      simp only [matchesOf, h'', Bool.false_eq_true, reduceIte, List.nil_append]
      rw [ihl]
theorem updateFirstList_matches_spec (cid : String) (f : DNode → DNode)
    (hid : ∀ m, matchesId cid m = true → matchesId cid (f m) = true)
    (hch : ∀ m, matchesId cid m = true → matchesOfList cid (childrenOf m) = [] →
      matchesOfList cid (childrenOf (f m)) = []) :
    ∀ l : DNodeList,
      (∀ m rest, matchesOfList cid l = m :: rest → matchesOfList cid (childrenOf m) = []) →
      matchesOfList cid (updateFirstList cid f l).1
        = match matchesOfList cid l with
          | [] => []
          | m :: rest => f m :: rest := by
  intro l hnest
  cases l with
  | nil => rfl
  | cons n ns =>
    by_cases ha : (updateFirst cid f n).2 = true
    · have hne : matchesOf cid n ≠ [] := by
        rw [updateFirst_found] at ha
        intro hc
        rw [hc] at ha
        simp at ha
      obtain ⟨m, rest, hm⟩ : ∃ m rest, matchesOf cid n = m :: rest := by
        cases hmo : matchesOf cid n with
        | nil => exact absurd hmo hne
        | cons a b => exact ⟨a, b, rfl⟩
      have ihn := updateFirst_matches_spec cid f hid hch n (by
        intro m' rest' hmr'
        apply hnest m' (rest' ++ matchesOfList cid ns)
        simp [matchesOfList, hmr'])
      simp only [updateFirstList, ha, reduceIte]
      simp only [matchesOfList]
      rw [ihn, hm]
      simp [hm, List.cons_append]
    · have ha' : (updateFirst cid f n).2 = false := by simpa using ha
      have hem : matchesOf cid n = [] := by
        rw [updateFirst_found] at ha'
        cases hmo : matchesOf cid n with
        | nil => rfl
        | cons a b =>
          rw [hmo] at ha'
          simp at ha'
      have ihl := updateFirstList_matches_spec cid f hid hch ns (by
        intro m rest hmr
        apply hnest m rest
        simp [matchesOfList, hem, hmr])
      simp only [updateFirstList, ha', Bool.false_eq_true, reduceIte]
      simp only [matchesOfList]
      rw [ihl]
      simp [hem]
end

end Overlay

namespace Overlay

mutual
theorem replaceFirstText_no_matches (cid : String) (t : String) (n : DNode)
    (h : matchesOf cid n = []) :
    matchesOf cid (replaceFirstText t n).1 = [] := by
  cases n with
  | text s =>
    by_cases hs : (jsTrim s != "") = true <;> simp [replaceFirstText, hs, matchesOf]
  | comment s => simp [replaceFirstText, matchesOf]
  | elem tag attrs style cs =>
    have hsplit : matchesId cid (.elem tag attrs style cs) = false
        ∧ matchesOfList cid cs = [] := by
      by_cases hm : matchesId cid (.elem tag attrs style cs) = true
      · rw [show matchesOf cid (.elem tag attrs style cs)
            = (.elem tag attrs style cs) :: matchesOfList cid cs from by
              simp [matchesOf, hm]] at h
        cases h
      · refine ⟨by simpa using hm, ?_⟩
        rw [show matchesOf cid (.elem tag attrs style cs) = matchesOfList cid cs from by
          simp [matchesOf, by simpa using hm]] at h
        exact h
    have ih := replaceFirstTextList_no_matches cid t cs hsplit.2
    simp only [replaceFirstText]
    simp only [matchesOf]
    rw [show matchesId cid (.elem tag attrs style (replaceFirstTextList t cs).1) = false
        from hsplit.1]
    simp [ih]
theorem replaceFirstTextList_no_matches (cid : String) (t : String) (l : DNodeList)
    (h : matchesOfList cid l = []) :
    matchesOfList cid (replaceFirstTextList t l).1 = [] := by
  cases l with
  | nil => simp [replaceFirstTextList, matchesOfList]
  | cons n ns =>
    have hsplit : matchesOf cid n = [] ∧ matchesOfList cid ns = [] := by
      rw [show matchesOfList cid (.cons n ns) = matchesOf cid n ++ matchesOfList cid ns
        from rfl] at h
      exact List.append_eq_nil.mp h
    have ih1 := replaceFirstText_no_matches cid t n hsplit.1
    have ih2 := replaceFirstTextList_no_matches cid t ns hsplit.2
    by_cases ha : (replaceFirstText t n).2 = true
    · simp [replaceFirstTextList, ha, matchesOfList, ih1, hsplit.2]
    · have ha' : (replaceFirstText t n).2 = false := by simpa using ha
      simp [replaceFirstTextList, ha', matchesOfList, hsplit.1, ih2]
end

theorem applyTextUpdate_shape (t tag : String) (attrs style : List (String × String))
    (cs : DNodeList) :
    applyTextUpdate t (.elem tag attrs style cs)
      = .elem tag attrs style
          (if (replaceFirstTextList t cs).2 then (replaceFirstTextList t cs).1
           else if childElemCount cs == 0 then
             (if t == "" then .nil else .cons (.text t) .nil)
           else cs) := by
  by_cases h1 : (replaceFirstTextList t cs).2 = true
  · simp [applyTextUpdate, h1]
  · have h1' : (replaceFirstTextList t cs).2 = false := by simpa using h1
    by_cases h2 : (childElemCount cs == 0) = true
    · simp [applyTextUpdate, h1', h2]
    · have h2' : (childElemCount cs == 0) = false := by simpa using h2
      simp [applyTextUpdate, h1', h2']

theorem applyUpdates_shape (u : UpdatePayload) (tag : String)
    (attrs style : List (String × String)) (cs : DNodeList) :
    ∃ style2 cs2, applyUpdates u (.elem tag attrs style cs)
      = .elem tag attrs style2 cs2 ∧
      (matchesOfList u.componentId cs = [] → matchesOfList u.componentId cs2 = []) := by
  unfold applyUpdates
  cases htc : u.textContent with
  | none =>
    rw [show (match (none : Option String) with
        | none => DNode.elem tag attrs style cs
        | some t => applyTextUpdate t (DNode.elem tag attrs style cs))
        = DNode.elem tag attrs style cs from rfl]
    cases hst : u.styles with
    | none => exact ⟨style, cs, rfl, fun h => h⟩
    | some entries => refine ⟨_, cs, rfl, fun h => h⟩
  | some t =>
    rw [show (match (some t : Option String) with
        | none => DNode.elem tag attrs style cs
        | some t2 => applyTextUpdate t2 (DNode.elem tag attrs style cs))
        = applyTextUpdate t (DNode.elem tag attrs style cs) from rfl]
    rw [applyTextUpdate_shape]
    have hX : matchesOfList u.componentId cs = [] →
        matchesOfList u.componentId
          (if (replaceFirstTextList t cs).2 then (replaceFirstTextList t cs).1
           else if childElemCount cs == 0 then
             (if t == "" then DNodeList.nil else .cons (.text t) .nil)
           else cs) = [] := by
      intro h
      by_cases h1 : (replaceFirstTextList t cs).2 = true
      · simp only [h1, reduceIte]
        exact replaceFirstTextList_no_matches _ t cs h
      · have h1' : (replaceFirstTextList t cs).2 = false := by simpa using h1
        simp only [h1', Bool.false_eq_true, reduceIte]
        by_cases h2 : (childElemCount cs == 0) = true
        · simp only [h2, reduceIte]
          by_cases ht : (t == "") = true <;> simp [ht, matchesOfList, matchesOf]
        · have h2' : (childElemCount cs == 0) = false := by simpa using h2
          simp only [h2', Bool.false_eq_true, reduceIte]
          exact h
    cases hst : u.styles with
    | none => exact ⟨style, _, rfl, hX⟩
    | some entries => refine ⟨_, _, rfl, hX⟩

theorem matchesId_applyUpdates (u : UpdatePayload) (m : DNode)
    (h : matchesId u.componentId m = true) :
    matchesId u.componentId (applyUpdates u m) = true := by
  cases m with
  | text s => simp [matchesId] at h
  | comment s => simp [matchesId] at h
  | elem tag attrs style cs =>
    obtain ⟨style2, cs2, heq, -⟩ := applyUpdates_shape u tag attrs style cs
    rw [heq]
    exact h

theorem childMatches_applyUpdates (u : UpdatePayload) (m : DNode)
    (hid : matchesId u.componentId m = true)
    (h : matchesOfList u.componentId (childrenOf m) = []) :
    matchesOfList u.componentId (childrenOf (applyUpdates u m)) = [] := by
  cases m with
  | text s => simp [matchesId] at hid
  | comment s => simp [matchesId] at hid
  | elem tag attrs style cs =>
    obtain ⟨style2, cs2, heq, hpres⟩ := applyUpdates_shape u tag attrs style cs
    rw [heq]
    simp only [childrenOf] at h ⊢
    exact hpres h

end Overlay

namespace Overlay

/-- A two-instance document: two sibling divs share the component id `x`
(as loop-rendered markup would), with texts `"a"` and `"b"`. -/
def twoInstanceDoc : DNode :=
  .elem "body" [] [] (.cons
    (.elem "div" [("data-0x-component-id", "x")] [] (.cons (.text "a") .nil))
    (.cons
      (.elem "div" [("data-0x-component-id", "x")] [] (.cons (.text "b") .nil))
      .nil))

/-- An `update-element` payload addressing instance 1 (the second element)
with replacement text `"NEW"`. -/
def secondInstanceUpdate : UpdatePayload :=
  { componentId := "x", instanceIndex := some 1, textContent := some "NEW"
    styles := none }

end Overlay

namespace Overlay

/-- C1 counterexample: with two live elements sharing component id `x` and
`instanceIndex = 1`, the claim requires the SECOND element to receive the new
text (`["a", "NEW"]`); the code mutates the FIRST match in document order
instead, giving `["NEW", "b"]`. -/
theorem C1_counterexample :
    (matchesOf "x" (updateElement twoInstanceDoc secondInstanceUpdate)).map directTextConcat
      = ["NEW", "b"] ∧
    (["NEW", "b"] : List String) ≠ ["a", "NEW"] := by
  refine ⟨rfl, by decide⟩

/-- C1 (amended): `updateElement` ignores `instanceIndex` entirely (the
payload field is never read), and always mutates exactly the first element
carrying the component id in document (preorder) order, leaving every other
element with that id unchanged — provided the first match does not itself
contain another element with the same id. -/
theorem C1_updateElement_first_match (doc : DNode) (u : UpdatePayload)
    (hnest : ∀ m rest, matchesOf u.componentId doc = m :: rest →
      matchesOfList u.componentId (childrenOf m) = []) :
    (∀ i j : Option Nat,
      updateElement doc { u with instanceIndex := i }
        = updateElement doc { u with instanceIndex := j }) ∧
    matchesOf u.componentId (updateElement doc u)
      = (match matchesOf u.componentId doc with
         | [] => []
         | m :: rest => applyUpdates u m :: rest) := by
  constructor
  · intro i j
    rfl
  · unfold updateElement
    exact updateFirst_matches_spec u.componentId (applyUpdates u)
      (fun m hm => matchesId_applyUpdates u m hm)
      (fun m hm hc => childMatches_applyUpdates u m hm hc) doc hnest

/-- C1 witness: the amended theorem applied to the two-instance document. -/
theorem C1_witness :
    (∀ m rest, matchesOf "x" twoInstanceDoc = m :: rest →
      matchesOfList "x" (childrenOf m) = []) ∧
    matchesOf "x" (updateElement twoInstanceDoc secondInstanceUpdate)
      = (match matchesOf "x" twoInstanceDoc with
         | [] => []
         | m :: rest => applyUpdates secondInstanceUpdate m :: rest) := by
  have hnest : ∀ m rest, matchesOf "x" twoInstanceDoc = m :: rest →
      matchesOfList "x" (childrenOf m) = [] := by
    intro m rest h
    have h' : (DNode.elem "div" [("data-0x-component-id", "x")] []
          (.cons (.text "a") .nil)) ::
        [DNode.elem "div" [("data-0x-component-id", "x")] [] (.cons (.text "b") .nil)]
        = m :: rest := h
    injection h' with h1 h2
    subst h1
    rfl
  exact ⟨hnest,
    (C1_updateElement_first_match twoInstanceDoc secondInstanceUpdate hnest).2⟩

end Overlay

namespace Overlay

/-- Written from the spec's words: replace the first string with
non-whitespace content in a list of text contents. -/
def replaceFirstNonWs (t : String) : List String → List String
  | [] => []
  | s :: rest => if jsTrim s != "" then t :: rest else s :: replaceFirstNonWs t rest

mutual
/-- Text-node contents of a subtree in document (preorder) order — the lists
the TreeWalker of updateElement traverses. -/
def textsOf : DNode → List String
  | .text s => [s]
  | .comment _ => []
  | .elem _ _ _ cs => textsOfList cs
def textsOfList : DNodeList → List String
  | .nil => []
  | .cons n ns => textsOf n ++ textsOfList ns
end

mutual
/-- Erase every text-node content (keeps the whole element structure:
tags, attributes, inline styles, nesting, node count). -/
def stripTexts : DNode → DNode
  | .text _ => .text ""
  | .comment s => .comment s
  | .elem tag attrs style cs => .elem tag attrs style (stripTextsList cs)
def stripTextsList : DNodeList → DNodeList
  | .nil => .nil
  | .cons n ns => .cons (stripTexts n) (stripTextsList ns)
end

theorem replaceFirstNonWs_append_pos (t : String) (l1 l2 : List String)
    (h : l1.any (fun s => jsTrim s != "") = true) :
    replaceFirstNonWs t (l1 ++ l2) = replaceFirstNonWs t l1 ++ l2 := by
  induction l1 with
  | nil => simp at h
  | cons s rest ih =>
    by_cases hs : (jsTrim s != "") = true
    · simp [replaceFirstNonWs, hs]
    · have hs' : (jsTrim s != "") = false := by simpa using hs
      simp only [List.any_cons, hs', Bool.false_or] at h
      simp [replaceFirstNonWs, hs', ih h]

theorem replaceFirstNonWs_append_neg (t : String) (l1 l2 : List String)
    (h : l1.any (fun s => jsTrim s != "") = false) :
    replaceFirstNonWs t (l1 ++ l2) = l1 ++ replaceFirstNonWs t l2 := by
  induction l1 with
  | nil => rfl
  | cons s rest ih =>
    simp only [List.any_cons, Bool.or_eq_false_iff] at h
    simp [replaceFirstNonWs, h.1, ih h.2]

mutual
theorem replaceFirstText_found_iff (t : String) (n : DNode) :
    (replaceFirstText t n).2 = (textsOf n).any (fun s => jsTrim s != "") := by
  cases n with
  | text s =>
    by_cases hs : (jsTrim s != "") = true <;> simp [replaceFirstText, textsOf, hs]
  | comment s => rfl
  | elem tag attrs style cs =>
    have ih := replaceFirstTextList_found_iff t cs
    simp only [replaceFirstText, textsOf, ih]
theorem replaceFirstTextList_found_iff (t : String) (l : DNodeList) :
    (replaceFirstTextList t l).2 = (textsOfList l).any (fun s => jsTrim s != "") := by
  cases l with
  | nil => rfl
  | cons n ns =>
    have ih1 := replaceFirstText_found_iff t n
    have ih2 := replaceFirstTextList_found_iff t ns
    by_cases ha : (replaceFirstText t n).2 = true
    · have h1 : (textsOf n).any (fun s => jsTrim s != "") = true := by rw [← ih1]; exact ha
      simp [replaceFirstTextList, ha, textsOfList, List.any_append, h1]
    · have ha' : (replaceFirstText t n).2 = false := by simpa using ha
      have h1 : (textsOf n).any (fun s => jsTrim s != "") = false := by rw [← ih1]; exact ha'
      simp [replaceFirstTextList, ha', textsOfList, List.any_append, h1, ih2]
end

mutual
theorem replaceFirstText_texts (t : String) (n : DNode) :
    textsOf (replaceFirstText t n).1 = replaceFirstNonWs t (textsOf n) := by
  cases n with
  | text s =>
    by_cases hs : (jsTrim s != "") = true <;>
      simp [replaceFirstText, textsOf, replaceFirstNonWs, hs]
  | comment s => rfl
  | elem tag attrs style cs =>
    have ih := replaceFirstTextList_texts t cs
    simp only [replaceFirstText, textsOf, ih]
theorem replaceFirstTextList_texts (t : String) (l : DNodeList) :
    textsOfList (replaceFirstTextList t l).1 = replaceFirstNonWs t (textsOfList l) := by
  cases l with
  | nil => rfl
  | cons n ns =>
    have ihn := replaceFirstText_texts t n
    have ihl := replaceFirstTextList_texts t ns
    by_cases ha : (replaceFirstText t n).2 = true
    · have h1 : (textsOf n).any (fun s => jsTrim s != "") = true := by
        rw [← replaceFirstText_found_iff]; exact ha
      simp only [replaceFirstTextList, ha, reduceIte, textsOfList]
      rw [ihn, replaceFirstNonWs_append_pos t _ _ h1]
    · have ha' : (replaceFirstText t n).2 = false := by simpa using ha
      have h1 : (textsOf n).any (fun s => jsTrim s != "") = false := by
        rw [← replaceFirstText_found_iff]; exact ha'
      simp only [replaceFirstTextList, ha', Bool.false_eq_true, reduceIte, textsOfList]
      rw [ihl, replaceFirstNonWs_append_neg t _ _ h1]
end

mutual
theorem replaceFirstText_strip (t : String) (n : DNode) :
    stripTexts (replaceFirstText t n).1 = stripTexts n := by
  cases n with
  | text s =>
    by_cases hs : (jsTrim s != "") = true <;> simp [replaceFirstText, stripTexts, hs]
  | comment s => rfl
  | elem tag attrs style cs =>
    have ih := replaceFirstTextList_strip t cs
    simp only [replaceFirstText, stripTexts, ih]
theorem replaceFirstTextList_strip (t : String) (l : DNodeList) :
    stripTextsList (replaceFirstTextList t l).1 = stripTextsList l := by
  cases l with
  | nil => rfl
  | cons n ns =>
    have ihn := replaceFirstText_strip t n
    have ihl := replaceFirstTextList_strip t ns
    by_cases ha : (replaceFirstText t n).2 = true
    · simp only [replaceFirstTextList, ha, reduceIte, stripTextsList, ihn]
    · have ha' : (replaceFirstText t n).2 = false := by simpa using ha
      simp only [replaceFirstTextList, ha', Bool.false_eq_true, reduceIte,
        stripTextsList, ihl]
end

end Overlay

namespace Overlay

/-- C2 counterexample: (1) for a div whose only child is a span containing
`"hello"` (child elements, no direct text node), the claim requires the text
update to be skipped — the code overwrites the span's text; (2) for a div with
a span child followed by direct text `"world"`, the claim requires the first
DIRECT text node (`"world"`) to be replaced with children untouched — the code
replaces the first text node of the whole subtree, `"hello"` inside the span. -/
theorem C2_counterexample :
    textsOf (applyTextUpdate "NEW" (.elem "div" [] []
        (.cons (.elem "span" [] [] (.cons (.text "hello") .nil)) .nil)))
      = ["NEW"] ∧
    (["NEW"] : List String) ≠ ["hello"] ∧
    textsOf (applyTextUpdate "NEW" (.elem "div" [] []
        (.cons (.elem "span" [] [] (.cons (.text "hello") .nil))
          (.cons (.text "world") .nil))))
      = ["NEW", "world"] ∧
    (["NEW", "world"] : List String) ≠ ["hello", "NEW"] := by
  refine ⟨rfl, by decide, rfl, by decide⟩

/-- C2 (amended): on a text update, (i) when the element's subtree contains a
text node with non-whitespace content, the first such node in document order
(possibly inside a descendant) gets the new content; the list of text contents
changes by `replaceFirstNonWs` and the element structure (tags, attributes,
styles, nesting) is unchanged; (ii) when no such text node exists and the
element has no child elements, its entire text content is set; (iii) when no
such text node exists but child elements do, the element is left unchanged. -/
theorem C2_text_replacement (t tag : String) (attrs style : List (String × String))
    (cs : DNodeList) :
    ((textsOfList cs).any (fun s => jsTrim s != "") = true →
      applyTextUpdate t (.elem tag attrs style cs)
        = .elem tag attrs style (replaceFirstTextList t cs).1 ∧
      textsOfList (replaceFirstTextList t cs).1 = replaceFirstNonWs t (textsOfList cs) ∧
      stripTextsList (replaceFirstTextList t cs).1 = stripTextsList cs) ∧
    ((textsOfList cs).any (fun s => jsTrim s != "") = false → childElemCount cs = 0 →
      applyTextUpdate t (.elem tag attrs style cs)
        = .elem tag attrs style (if t == "" then .nil else .cons (.text t) .nil)) ∧
    ((textsOfList cs).any (fun s => jsTrim s != "") = false → childElemCount cs ≠ 0 →
      applyTextUpdate t (.elem tag attrs style cs) = .elem tag attrs style cs) := by
  refine ⟨?_, ?_, ?_⟩
  · intro h
    have hf : (replaceFirstTextList t cs).2 = true := by
      rw [replaceFirstTextList_found_iff]; exact h
    exact ⟨by simp [applyTextUpdate, hf],
      replaceFirstTextList_texts t cs,
      replaceFirstTextList_strip t cs⟩
  · intro h hc
    have hf : (replaceFirstTextList t cs).2 = false := by
      rw [replaceFirstTextList_found_iff]; exact h
    have hc' : (childElemCount cs == 0) = true := by simpa using hc
    simp [applyTextUpdate, hf, hc']
  · intro h hc
    have hf : (replaceFirstTextList t cs).2 = false := by
      rw [replaceFirstTextList_found_iff]; exact h
    have hc' : (childElemCount cs == 0) = false := by simpa using hc
    simp [applyTextUpdate, hf, hc']

/-- C2 witness: the three cases at concrete inputs: a p with one text child, a
childless p, and a div whose only child is an empty span. -/
theorem C2_witness :
    (applyTextUpdate "NEW" (.elem "p" [] [] (.cons (.text "hi") .nil))
        = .elem "p" [] [] (replaceFirstTextList "NEW" (.cons (.text "hi") .nil)).1 ∧
      textsOfList (replaceFirstTextList "NEW" (.cons (.text "hi") .nil)).1
        = replaceFirstNonWs "NEW" (textsOfList (.cons (.text "hi") .nil)) ∧
      stripTextsList (replaceFirstTextList "NEW" (.cons (.text "hi") .nil)).1
        = stripTextsList (.cons (.text "hi") .nil)) ∧
    applyTextUpdate "NEW" (.elem "p" [] [] .nil)
      = .elem "p" [] [] (if "NEW" == "" then DNodeList.nil
          else .cons (.text "NEW") .nil) ∧
    applyTextUpdate "NEW" (.elem "div" [] [] (.cons (.elem "span" [] [] .nil) .nil))
      = .elem "div" [] [] (.cons (.elem "span" [] [] .nil) .nil) := by
  refine ⟨?_, ?_, ?_⟩
  · exact (C2_text_replacement "NEW" "p" [] [] (.cons (.text "hi") .nil)).1 (by decide)
  · exact (C2_text_replacement "NEW" "p" [] [] .nil).2.1 (by decide) (by decide)
  · exact (C2_text_replacement "NEW" "div" [] []
      (.cons (.elem "span" [] [] .nil) .nil)).2.2 (by decide) (by decide)

end Overlay
